import Mathlib

/-!
Shallow embedding of the request-shaping and rate-limiting core of
`FetchHttpClient` (src/lib/http/fetch-http-client.impl.ts) together with the
pieces of the JavaScript runtime it observably relies on (plain objects used
as string maps, truthiness, `JSON.stringify`, the WHATWG `Headers` collection
as provided by cross-fetch, and `Array.prototype.slice`/`indexOf`).

Machine integers do not occur in the relevant code paths (ticket ids and
timestamps are small non-negative integers), so they are modelled as `Nat`.
-/

/-- Errors thrown by the modelled JavaScript code. `typeError` stands for the
`TypeError` raised by the `Headers` constructor on invalid header names or
values; `other` stands for any other thrown value (network failures, parse
failures, ...). -/
inductive JsError where
  | typeError (msg : String)
  | other (msg : String)
deriving DecidableEq, Repr

/-- A JavaScript value, as far as request/response bodies are concerned. -/
inductive JsValue where
  | str (s : String)
  | num (n : Int)
  | bool (b : Bool)
  | null
  | obj (fields : List (String × JsValue))
  | arr (elems : List JsValue)

/-- JavaScript truthiness of a `JsValue` (`!!v`). Objects and arrays are
always truthy; `""`, `0`, `false` and `null` are falsy. -/
def JsValue.truthy : JsValue → Bool
  | .str s => !s.isEmpty
  | .num n => n != 0
  | .bool b => b
  | .null => false
  | .obj _ => true
  | .arr _ => true

/-- Truthiness of an optional JS value, where `none` models `undefined`. -/
def jsTruthy : Option JsValue → Bool
  | some v => v.truthy
  | none => false

/-- Truthiness of a nullable string (as returned by `headers.get`): `null`
and the empty string are falsy. -/
def strTruthy : Option String → Bool
  | some s => !s.isEmpty
  | none => false

/-- HTTP whitespace (space, tab, LF, CR), the set the WHATWG `Headers`
value normalization strips. -/
def isHttpWhitespace (c : Char) : Bool :=
  c = ' ' || c = '\t' || c = '\n' || c = '\r'

/-- Strip leading and trailing HTTP whitespace (the `Headers` value
normalization), defined structurally so that it evaluates inside the
kernel. -/
def httpTrim (s : String) : String :=
  String.mk (((s.data.dropWhile isHttpWhitespace).reverse.dropWhile isHttpWhitespace).reverse)

/-- The whitespace removed by `String.prototype.trim`: the ECMAScript
WhiteSpace production (tab, VT, FF, space, NBSP, ZWNBSP and the Unicode
space separators) together with the LineTerminator production
(LF, CR, LS, PS). -/
def isJsWhitespace (c : Char) : Bool :=
  c.toNat = 0x9 || c.toNat = 0xA || c.toNat = 0xB || c.toNat = 0xC || c.toNat = 0xD
    || c.toNat = 0x20 || c.toNat = 0xA0 || c.toNat = 0x1680
    || (0x2000 ≤ c.toNat && c.toNat ≤ 0x200A)
    || c.toNat = 0x2028 || c.toNat = 0x2029 || c.toNat = 0x202F
    || c.toNat = 0x205F || c.toNat = 0x3000 || c.toNat = 0xFEFF

/-- JS `String.prototype.trim`, defined structurally so that it evaluates
inside the kernel. -/
def jsTrim (s : String) : String :=
  String.mk (((s.data.dropWhile isJsWhitespace).reverse.dropWhile isJsWhitespace).reverse)

/-- Lowercase a string character-wise (model of `toLowerCase()` on the ASCII
strings that occur here), defined structurally so that it evaluates inside
the kernel. -/
def jsToLower (s : String) : String :=
  String.mk (s.data.map Char.toLower)

/-- Does the character list start with the given pattern? (Helper for the
string predicates below, defined structurally for kernel evaluation.) -/
def charsStart : List Char → List Char → Bool
  | _, [] => true
  | [], _ :: _ => false
  | c :: cs, d :: ds => c == d && charsStart cs ds

/-- Does the character list contain the pattern as a contiguous run? -/
def charsContain : List Char → List Char → Bool
  | [], sub => sub.isEmpty
  | c :: rest, sub => charsStart (c :: rest) sub || charsContain rest sub

/-- JS `String.prototype.startsWith`. -/
def jsStartsWith (s pre : String) : Bool :=
  charsStart s.data pre.data

/-- Escape one character for a JSON string literal, as `JSON.stringify`
does for the characters that can occur in this development. -/
def jsonEscapeChar (c : Char) : String :=
  if c = '"' then "\\\""
  else if c = '\\' then "\\\\"
  else if c = '\n' then "\\n"
  else if c = '\r' then "\\r"
  else if c = '\t' then "\\t"
  else String.singleton c

/-- Escape a string for a JSON string literal. -/
def jsonEscape (s : String) : String :=
  s.data.foldl (fun acc c => acc ++ jsonEscapeChar c) ""

mutual
/-- Model of `JSON.stringify` on `JsValue` (total on this value type;
`undefined`/function members do not occur). -/
def jsonStringify : JsValue → String
  | .str s => "\"" ++ jsonEscape s ++ "\""
  | .num n => toString n
  | .bool true => "true"
  | .bool false => "false"
  | .null => "null"
  | .obj fields => "\x7b" ++ String.intercalate "," (jsonStringifyFields fields) ++ "\x7d"
  | .arr elems => "[" ++ String.intercalate "," (jsonStringifyElems elems) ++ "]"

/-- Serialize the members of a JSON object. -/
def jsonStringifyFields : List (String × JsValue) → List String
  | [] => []
  | (k, v) :: rest => ("\"" ++ jsonEscape k ++ "\":" ++ jsonStringify v) :: jsonStringifyFields rest

/-- Serialize the elements of a JSON array. -/
def jsonStringifyElems : List JsValue → List String
  | [] => []
  | v :: rest => jsonStringify v :: jsonStringifyElems rest
end

/-!
## JavaScript plain objects used as string-to-string maps

A plain object literal is a list of key/value entries in insertion order with
unique keys. Assigning to an existing key replaces the value in place;
assigning a fresh key appends. Spreads (`{...a, ...b}`) and
`Object.fromEntries` insert entries left to right with these semantics.
-/

/-- A JavaScript plain object holding string values (e.g. a headers record). -/
abbrev JsObj : Type := List (String × String)

/-- Whether the object has an entry with exactly this key. -/
def objMemKey : JsObj → String → Bool
  | [], _ => false
  | p :: rest, k => if p.1 = k then true else objMemKey rest k

/-- Property lookup `o[k]` (first entry with the key; entries are unique in
objects actually built by the code). -/
def objGet : JsObj → String → Option String
  | [], _ => none
  | p :: rest, k => if p.1 = k then some p.2 else objGet rest k

/-- Property assignment `o[k] = v`: replace in place when the key exists,
append otherwise. -/
def objInsert (o : JsObj) (k v : String) : JsObj :=
  if objMemKey o k then o.map (fun p => if p.1 = k then (k, v) else p) else o ++ [(k, v)]

/-- Object spread `{...a, ...b}`: insert the entries of `b` into `a` from
left to right. -/
def objSpread (a b : JsObj) : JsObj :=
  b.foldl (fun m p => objInsert m p.1 p.2) a

/-- `Object.fromEntries`: build an object from a list of entries, later
entries with the same key overriding earlier ones. -/
def fromEntries (l : List (String × String)) : JsObj :=
  objSpread [] l

/-- Left-biased choice on optional values (`x ?? y` on nullable strings). -/
def jsOr (x y : Option String) : Option String :=
  match x with
  | some v => some v
  | none => y

/-- Value carried by the last entry of the list with the given key (this is
what a left-to-right sequence of assignments leaves in the object). -/
def lastGet : List (String × String) → String → Option String
  | [], _ => none
  | p :: rest, k => jsOr (lastGet rest k) (if p.1 = k then some p.2 else none)

/-!
## Headers

`HeadersInit` mirrors the three accepted shapes of the fetch `HeadersInit`
type: a native `Headers` collection, a list of name/value pairs, and a plain
record. A native `Headers` collection is represented by its at-rest entry
list; the real collection stores names lowercased (a fact the theorems about
native inputs take as a hypothesis rather than bake into the type).
-/

/-- The three accepted header representations. -/
inductive HeadersInit where
  | native (entries : JsObj)
  | pairs (l : List (String × String))
  | record (o : JsObj)

/-- The raw name/value entries a `HeadersInit` value carries. -/
def headersInitEntries : Option HeadersInit → List (String × String)
  | none => []
  | some (.native entries) => entries
  | some (.pairs l) => l
  | some (.record o) => o

/-- Model of `FetchHttpClient.#getNormalizedHeaders` (source lines 302-325):
native collections pass through `Object.fromEntries(headers.entries())`
(their names are already lowercase), while pair lists and records have each
name lowercased before `Object.fromEntries`. -/
def getNormalizedHeaders : Option HeadersInit → JsObj
  | none => []
  | some (.native entries) => fromEntries entries
  | some (.pairs l) => fromEntries (l.map (fun p => (jsToLower p.1, p.2)))
  | some (.record o) => fromEntries (o.map (fun p => (jsToLower p.1, p.2)))

/-- HTTP token characters, the characters legal in a header name
(RFC 7230, enforced by the `Headers` constructor). The listed code points
are the ASCII specials allowed beside alphanumerics. -/
def isTokenChar (c : Char) : Bool :=
  c.isAlphanum || [33, 35, 36, 37, 38, 39, 42, 43, 45, 46, 94, 95, 96, 124, 126].contains c.toNat

/-- A header name is valid when non-empty and made of token characters. -/
def isValidHeaderName (n : String) : Bool :=
  !n.isEmpty && n.data.all isTokenChar

/-- A header value (after whitespace normalization) must not contain NUL,
LF or CR. -/
def isValidHeaderValue (v : String) : Bool :=
  v.data.all (fun c => c.toNat != 0 && c != '\n' && c != '\r')

/-- Model of the `Headers` constructor applied to a plain record (the only
construction the client performs, at source line 196): validate each name and
value, lowercase the name, trim the value, throwing `TypeError` on the first
invalid entry. The records the client passes have unique already-lowercased
keys, so duplicate-name combining never arises. The resulting object is the
collection's observable at-rest entry list (`entries()`/`get` view). -/
def mkHeaders (o : JsObj) : Except JsError JsObj :=
  o.foldlM
    (fun m p =>
      if isValidHeaderName p.1 then
        let v := httpTrim p.2
        if isValidHeaderValue v then
          Except.ok (objInsert m (jsToLower p.1) v)
        else Except.error (.typeError "invalid header value")
      else Except.error (.typeError "invalid header name"))
    ([] : JsObj)

/-- JS `String.prototype.includes`: case-sensitive substring test. -/
def strIncludes (s sub : String) : Bool :=
  charsContain s.data sub.data

/-!
## Client configuration (constructor, source lines 137-149)
-/

/-- The HTTP protocol enum from `http-client.interface.ts`. -/
inductive HttpProtocol where
  | http
  | https
deriving DecidableEq, Repr

/-- The string value of the protocol enum member. -/
def HttpProtocol.toStr : HttpProtocol → String
  | .http => "http"
  | .https => "https"

/-- Constructor options (`FetchHttpClientOptions`), every field optional.
`defaultRequestOptions` is represented by its `headers` member, the only
member the claims observe; the remaining `RequestInit` members pass through
to the transport untouched. -/
structure FetchHttpClientOptions where
  protocol : Option HttpProtocol := none
  host : Option String := none
  path : Option String := none
  defaultHeaders : Option HeadersInit := none
  rateLimitMs : Option Nat := none

/-- The immutable state of a constructed client. -/
structure ClientConfig where
  protocol : HttpProtocol
  host : String
  path : String
  defaultHeaders : Option HeadersInit
  rateLimitMs : Nat

/-- The constructor's guard: `path && !path.startsWith('/')` (`path` is
truthy exactly when supplied and non-empty). -/
def pathRejected : Option String → Bool
  | some p => !p.isEmpty && !jsStartsWith p "/"
  | none => false

/-- Model of the `FetchHttpClient` constructor: throws on a non-empty path
that does not start with `/`, otherwise fills in defaults. -/
def mkClient (options : FetchHttpClientOptions) : Except JsError ClientConfig :=
  if pathRejected options.path then
    Except.error (.other ("Could not create FetchHttpClient. Provided path \""
      ++ options.path.getD "" ++ "\" does not start with a \"/\"."))
  else
    Except.ok ⟨options.protocol.getD .http, options.host.getD "",
      options.path.getD "", options.defaultHeaders, options.rateLimitMs.getD 0⟩

/-!
## URI composition (`URI_REGEX` and `_getTreatedUri`, source lines 95, 151-177)

`URI_REGEX` is `^(?:(proto [a-z]+)://)? (host [a-z\d.]+)? (path /.*)?$` with
the `i` flag. Because `:` is neither alphabetic, a host character, nor a
legal start of the path group, the regex engine's greedy backtracking search
collapses to a deterministic split: the protocol group matches iff the
maximal alphabetic prefix is non-empty and followed by `://` (no shorter
prefix can be followed by `:`); the host group then takes the maximal run of
`[a-zA-Z0-9.]`; the remainder must be empty or start with `/`, else the whole
match fails (backtracking the host only moves another non-`/` host character
to the front of the required path). JS `.` does not match the
LineTerminator characters (LF, CR, LS, PS) and `$` without the `m` flag only
anchors at the true end of the input, so a remainder containing a line
terminator after its leading `/` cannot be consumed by `\/.*` and the whole
match fails there as well.
-/

/-- Characters allowed by the regex's host group, `[a-z\d.]` with flag `i`. -/
def isHostChar (c : Char) : Bool :=
  c.isAlphanum || c = '.'

/-- The JS regex LineTerminator characters, which `.` never matches:
LF, CR, U+2028 (LS) and U+2029 (PS). -/
def isRegexLineTerm (c : Char) : Bool :=
  c.toNat = 0xA || c.toNat = 0xD || c.toNat = 0x2028 || c.toNat = 0x2029

/-- Model of `URI_REGEX.exec` on the (already trimmed) input: `none` when the
regex does not match, otherwise the three capture groups
(protocol, host, path), each `none` when unmatched. -/
def uriExec (s : String) : Option (Option String × Option String × Option String) :=
  let cs := s.data
  let al := cs.takeWhile Char.isAlpha
  let protoSplit : Option String × List Char :=
    if !al.isEmpty && (cs.drop al.length).take 3 = [':', '/', '/'] then
      (some (String.mk al), (cs.drop al.length).drop 3)
    else (none, cs)
  let hs := protoSplit.2.takeWhile isHostChar
  let rest := protoSplit.2.drop hs.length
  match rest with
  | [] => some (protoSplit.1, if hs.isEmpty then none else some (String.mk hs), none)
  | c :: cs =>
    if c = '/' then
      if cs.all (fun ch => !isRegexLineTerm ch) then
        some (protoSplit.1, if hs.isEmpty then none else some (String.mk hs), some (String.mk rest))
      else none
    else none

/-- Model of `_getTreatedUri`: trim, run the regex, and assemble the final
URI from the captured groups and the configured protocol/host/path.
`this._protocol`/`this._host`/`this._path` are never nullish after
construction, so their `??` fallbacks are invisible here. -/
def getTreatedUri (cfg : ClientConfig) (uri : String) : String :=
  let trimmedUri := jsTrim uri
  match uriExec trimmedUri with
  | none => ""
  | some (protocol, host, path) =>
    if protocol.isNone && host.isNone then
      (if cfg.host ≠ "" then cfg.protocol.toStr ++ "://" ++ cfg.host else "")
        ++ cfg.path ++ path.getD ""
    else
      protocol.getD cfg.protocol.toStr ++ "://" ++ host.getD cfg.host
        ++ cfg.path ++ path.getD ""

/-!
## The request pipeline (`makeRequest`, source lines 179-265)

The per-call pipeline is modelled as a pure function from the client state,
the injected transport, and the call arguments to an observation record: the
pre-send notification payload, the post-receive payload, the errors passed to
the on-error channel, and the settled promise (`Except.error` = rejection).
The rate-limiting gate (lines 184-192) orders calls but does not change any
of these per-call observables; it is modelled separately as the `RLStep`
transition system below.
-/

/-- Per-call request data (`BasicHttpRequestData`): `options` is represented
by its `headers` member (the only member the claims observe); `allowThrow`
is `false` when omitted, matching JS truthiness of `undefined`. -/
structure BasicHttpRequestData where
  body : Option JsValue := none
  headers : Option HeadersInit := none
  responseBodyParser : Option (JsValue → Except JsError JsValue) := none
  allowThrow : Bool := false

/-- The request-options value handed to the transport: method, final headers
record, and the (possibly JSON-serialized) body. -/
structure RequestOptions where
  method : String
  headers : JsObj
  body : Option JsValue

/-- A transport response: its header collection (at rest, names lowercase),
its raw body, and the results of its `json()` and `text()` methods (an
`Except.error` models a parser that throws/rejects). -/
structure ResponseModel where
  headers : JsObj
  rawBody : JsValue
  jsonResult : Except JsError JsValue
  textResult : Except JsError String

/-- The injected transport collaborator (`fetch`). -/
def Transport : Type := String → RequestOptions → Except JsError ResponseModel

/-- Everything one `makeRequest` call observably does: the pre-send
notification payload (`onSendRequest`), the post-receive payload
(`onReceiveResponse`), the errors passed to `onError` in order, and the
settled result of the returned promise. -/
structure CallObservation where
  sent : Option (String × RequestOptions)
  received : Option ResponseModel
  onErrorEvents : List JsError
  outcome : Except JsError (Option ResponseModel × Option JsValue)

/-- Merged headers of a call: `new Headers({...normalized defaults,
...normalized per-call headers})` (source lines 196-199). This runs before
the `try` block. -/
def mergedHeaders (cfg : ClientConfig) (req : BasicHttpRequestData) : Except JsError JsObj :=
  mkHeaders (objSpread (getNormalizedHeaders cfg.defaultHeaders)
    (getNormalizedHeaders req.headers))

/-- Response-body parsing (source lines 238-251): a supplied
`responseBodyParser` is applied to the raw body; otherwise `json()` when the
response's content-type contains `application/json` as a substring, else
`text()`. The chosen default method is `.bind(response)`, which the
structure models by `jsonResult`/`textResult` belonging to the response. -/
def chosenParse (req : BasicHttpRequestData) (resp : ResponseModel) : Except JsError JsValue :=
  match req.responseBodyParser with
  | some f => f resp.rawBody
  | none =>
    if strIncludes ((objGet resp.headers "content-type").getD "") "application/json" then
      resp.jsonResult
    else
      resp.textResult.map JsValue.str

/-- The request-options literal of source lines 212-227: headers start from
`accept: */*`, then the normalized merged headers, then (when a content-type
applies) the `content-type`/`accept` override pair; the body is JSON
stringified exactly when `isJsonRequest`. -/
def buildRequestOptions (method : String) (hdrs : JsObj) (contentTypeToUse : Option String)
    (isJsonRequest : Bool) (body : Option JsValue) : RequestOptions :=
  let extra : JsObj :=
    match contentTypeToUse with
    | some c => if c.isEmpty then [] else [("content-type", c), ("accept", c ++ ", */*;q=0.9")]
    | none => []
  { method := method
    headers := objSpread (objSpread (fromEntries [("accept", "*/*")]) (fromEntries hdrs)) extra
    body := if isJsonRequest then body.map (fun v => .str (jsonStringify v)) else body }

/-- `headers.get('content-type')` on the merged collection (source line 201):
names are stored lowercased, so the case-insensitive lookup is a plain
lookup. -/
def contentTypeOf (hdrs : JsObj) : Option String :=
  objGet hdrs "content-type"

/-- `isJsonRequest` (source line 203): the content-type is falsy (absent or
empty) or case-insensitively equal to exactly `application/json`, and the
body is truthy. -/
def isJsonRequestOf (hdrs : JsObj) (body : Option JsValue) : Bool :=
  (!strTruthy (contentTypeOf hdrs)
      || jsToLower ((contentTypeOf hdrs).getD "") == "application/json")
    && jsTruthy body

/-- `contentTypeToUse` (source lines 205-208): the merged content-type,
replaced by `application/json` when falsy on a JSON request. -/
def contentTypeToUseOf (hdrs : JsObj) (body : Option JsValue) : Option String :=
  if !strTruthy (contentTypeOf hdrs) && isJsonRequestOf hdrs body then
    some "application/json"
  else contentTypeOf hdrs

/-- The `try`/`catch` part of `makeRequest` (source lines 201-264), entered
with the already-merged header collection `hdrs`. -/
def dispatchPhase (cfg : ClientConfig) (transport : Transport) (method uri : String)
    (req : BasicHttpRequestData) (hdrs : JsObj) : CallObservation :=
  let requestUri := getTreatedUri cfg uri
  let ropts := buildRequestOptions method hdrs (contentTypeToUseOf hdrs req.body)
    (isJsonRequestOf hdrs req.body) req.body
  match transport requestUri ropts with
  | .error e =>
    ⟨some (requestUri, ropts), none, [e],
      if req.allowThrow then .error e else .ok (none, none)⟩
  | .ok response =>
    match chosenParse req response with
    | .ok b => ⟨some (requestUri, ropts), some response, [], .ok (some response, some b)⟩
    | .error e =>
      ⟨some (requestUri, ropts), some response, [e],
        if req.allowThrow then .error e else .ok (none, none)⟩

/-- Model of one `makeRequest` call. The header merge of lines 196-199 runs
before the `try` block: when it throws, the promise rejects with no on-error
notification regardless of `allowThrow`. -/
def makeRequest (cfg : ClientConfig) (transport : Transport) (method uri : String)
    (req : BasicHttpRequestData) : CallObservation :=
  match mergedHeaders cfg req with
  | .error e => ⟨none, none, [], .error e⟩
  | .ok hdrs => dispatchPhase cfg transport method uri req hdrs

/-- The body of the dispatched request, when one was dispatched. -/
def sentBodyOf (obs : CallObservation) : Option (Option JsValue) :=
  obs.sent.map (fun p => p.2.body)

/-- The headers of the dispatched request, when one was dispatched. -/
def sentHeadersOf (obs : CallObservation) : Option JsObj :=
  obs.sent.map (fun p => p.2.headers)

/-!
## `RequestQueue` (source lines 328-363)

Tickets are appended with strictly increasing ids; `dequeue`/`peek` act on
the front. `remove` uses `Array.prototype.indexOf` (which returns `-1` on a
missing element) and `slice` (whose negative arguments count from the end),
so both JS behaviours are modelled exactly.
-/

/-- `Array.prototype.indexOf`: index of the first occurrence, `-1` if absent. -/
def jsIndexOf : List Nat → Nat → Int
  | [], _ => -1
  | a :: rest, x =>
    if a = x then 0
    else
      let r := jsIndexOf rest x
      if r < 0 then -1 else r + 1

/-- Clamp one `slice` argument: negative values count from the end, values
past the end stop at the end. -/
def jsSliceIndex (len : Nat) (i : Int) : Nat :=
  if i < 0 then ((len : Int) + i).toNat else min i.toNat len

/-- `Array.prototype.slice(start, stop)`. -/
def jsSlice (l : List Nat) (start stop : Int) : List Nat :=
  (l.take (jsSliceIndex l.length stop)).drop (jsSliceIndex l.length start)

/-- `Array.prototype.slice(start)` with the stop argument omitted. -/
def jsSliceFrom (l : List Nat) (start : Int) : List Nat :=
  jsSlice l start (l.length : Int)

/-- The private queue state: `#nextCallId` and `#queuedCalls`. -/
structure RequestQueue where
  nextCallId : Nat
  queuedCalls : List Nat
deriving DecidableEq, Repr

/-- `enqueue()`: push the next id and return it. -/
def RequestQueue.enqueue (q : RequestQueue) : RequestQueue × Nat :=
  (⟨q.nextCallId + 1, q.queuedCalls ++ [q.nextCallId]⟩, q.nextCallId)

/-- `dequeue()`: drop and return the head. -/
def RequestQueue.dequeue (q : RequestQueue) : RequestQueue × Option Nat :=
  (⟨q.nextCallId, q.queuedCalls.drop 1⟩, q.queuedCalls.head?)

/-- `peek()`: the head without removal. -/
def RequestQueue.peek (q : RequestQueue) : Option Nat :=
  q.queuedCalls.head?

/-- `remove(id)`: `[...slice(0, indexOf(id)), ...slice(indexOf(id) + 1)]`. -/
def RequestQueue.remove (q : RequestQueue) (id : Nat) : RequestQueue :=
  let indexOfId := jsIndexOf q.queuedCalls id
  ⟨q.nextCallId,
    jsSlice q.queuedCalls 0 indexOfId ++ jsSliceFrom q.queuedCalls (indexOfId + 1)⟩

/-!
## The rate-limiting gate (source lines 129-135 and 184-192)

Under JavaScript's single-threaded scheduling the observable atomic blocks
of the gate are: obtaining a ticket (`enqueue`), time passing, a waiting
call whose ticket is at the head passing the gate once the interval has
elapsed (`waitFor` predicate true, then `dequeue()` and the
`#timeOfLastRequest = Date.now()` write, with no interleaving point between
them), and a call that never queued dispatching directly (`#shouldQueueRequest`
false on entry). `grant` only fires for the head ticket because the `waitFor`
predicate requires `peek() === requestId`.
-/

/-- The shared per-client rate-limiting state: the queue's ticket list, the
next ticket id, `#timeOfLastRequest`, the current clock, and the log of
ticketed dispatches in dispatch-start order. -/
structure RLState where
  queue : List Nat
  nextId : Nat
  timeOfLast : Nat
  now : Nat
  dispatched : List Nat

/-- One observable atomic step of the gate, for a client with rate limit
`rate`. -/
inductive RLStep (rate : Nat) : RLState → RLState → Prop where
  | enqueue (s : RLState) (hrate : 0 < rate) (hq : s.now < s.timeOfLast + rate) :
      RLStep rate s ⟨s.queue ++ [s.nextId], s.nextId + 1, s.timeOfLast, s.now, s.dispatched⟩
  | tick (s : RLState) (dt : Nat) :
      RLStep rate s ⟨s.queue, s.nextId, s.timeOfLast, s.now + dt, s.dispatched⟩
  | grant (s : RLState) (id : Nat) (t : List Nat) (hq : s.queue = id :: t)
      (ht : s.timeOfLast + rate ≤ s.now) :
      RLStep rate s ⟨t, s.nextId, s.now, s.now, s.dispatched ++ [id]⟩
  | bypass (s : RLState) (h : rate = 0 ∨ s.timeOfLast + rate ≤ s.now) :
      RLStep rate s ⟨s.queue, s.nextId, s.now, s.now, s.dispatched⟩

/-- The state of a freshly constructed client. -/
def RLInit : RLState := ⟨[], 0, 0, 0, []⟩

/-- States the gate can reach from a freshly constructed client. -/
def RLReachable (rate : Nat) (s : RLState) : Prop :=
  Relation.ReflTransGen (RLStep rate) RLInit s

/-!
## Concrete fixtures used by witnesses and counterexamples
-/

/-- A client constructed with no options. -/
def cfgDefault : ClientConfig := ⟨.http, "", "", none, 0⟩

/-- A client with a default host and base path. -/
def cfgGoogle : ClientConfig := ⟨.http, "google.com", "/api", none, 0⟩

/-- A JSON response (content-type carries a charset parameter). -/
def respJsonEx : ResponseModel :=
  ⟨[("content-type", "application/json; charset=utf-8")], .str "raw",
    .ok (.obj [("a", .num 1)]), .ok "rawtext"⟩

/-- A non-JSON response. -/
def respTextEx : ResponseModel :=
  ⟨[("content-type", "text/html")], .null, .error (.other "not json"), .ok "hello"⟩

/-- A transport that always succeeds with the given response. -/
def okTransport (r : ResponseModel) : Transport := fun _ _ => .ok r

/-- A transport that always rejects with the given error. -/
def failTransport (e : JsError) : Transport := fun _ _ => .error e

/-- A call with an explicit `text/plain` content-type and a string body. -/
def reqPlainText : BasicHttpRequestData :=
  { body := some (.str "hi"), headers := some (.record [("Content-Type", "text/plain")]) }

/-- A call with an explicit `application/json` content-type and a string body. -/
def reqJsonCT : BasicHttpRequestData :=
  { body := some (.str "hi"), headers := some (.record [("content-type", "application/json")]) }

/-- A call whose content-type header carries an empty value. -/
def reqEmptyCT : BasicHttpRequestData :=
  { body := some (.str "x"), headers := some (.record [("content-type", "")]) }

/-- A call whose per-call headers contain an invalid header name. -/
def reqBadName : BasicHttpRequestData :=
  { headers := some (.record [("bad name", "v")]) }

/-- A bare call: no body, no headers, no parser, `allowThrow` omitted. -/
def reqPlain : BasicHttpRequestData := {}

/-- A call with an object body and no headers. -/
def reqObjBody : BasicHttpRequestData :=
  { body := some (.obj [("a", .num 1)]) }

/-- A bare call with `allowThrow: true`. -/
def reqThrow : BasicHttpRequestData := { allowThrow := true }

/-- The entry list whose `Object.fromEntries` image is
`getNormalizedHeaders h` (names lowercased for pair lists and records,
passed through for native collections). -/
def normEntriesOf : Option HeadersInit → List (String × String)
  | none => []
  | some (.native entries) => entries
  | some (.pairs l) => l.map (fun p => (jsToLower p.1, p.2))
  | some (.record o) => o.map (fun p => (jsToLower p.1, p.2))

/-- The fact the real `Headers` collection guarantees about a native input:
its at-rest names are lowercase. Trivial for the other two shapes. -/
def nativeLowercased : Option HeadersInit → Prop
  | some (.native entries) => ∀ p ∈ entries, jsToLower p.1 = p.1
  | _ => True

/-- Gate invariant: the ticketed dispatch log followed by the waiting queue
is strictly increasing, and all issued tickets are below the next id. -/
def rlOrdered (s : RLState) : Prop :=
  (s.dispatched ++ s.queue).Sorted (· < ·)
    ∧ ∀ x ∈ s.dispatched ++ s.queue, x < s.nextId


/-!
## Lemmas about JavaScript object semantics
-/

theorem jsOr_some (v : String) (y : Option String) : jsOr (some v) y = some v := rfl

theorem jsOr_none (y : Option String) : jsOr none y = y := rfl

theorem jsOr_none_right (x : Option String) : jsOr x none = x := by
  cases x <;> rfl

theorem jsOr_assoc (x y z : Option String) :
    jsOr (jsOr x y) z = jsOr x (jsOr y z) := by
  cases x <;> rfl

theorem objMemKey_isSome (o : JsObj) (k : String) :
    objMemKey o k = (objGet o k).isSome := by
  induction o with
  | nil => rfl
  | cons p rest ih => by_cases h : p.1 = k <;> simp [objMemKey, objGet, h, ih]

theorem objGet_eq_none (o : JsObj) (k : String) (h : objMemKey o k = false) :
    objGet o k = none := by
  induction o with
  | nil => rfl
  | cons p rest ih =>
    by_cases hp : p.1 = k
    · simp [objMemKey, hp] at h
    · simp only [objMemKey, if_neg hp] at h
      simp [objGet, hp, ih h]

theorem lastGet_eq_none (o : JsObj) (k : String) (h : objMemKey o k = false) :
    lastGet o k = none := by
  induction o with
  | nil => rfl
  | cons p rest ih =>
    by_cases hp : p.1 = k
    · simp [objMemKey, hp] at h
    · simp only [objMemKey, if_neg hp] at h
      simp [lastGet, hp, ih h, jsOr]

theorem objGet_append (a b : JsObj) (k : String) :
    objGet (a ++ b) k = jsOr (objGet a k) (objGet b k) := by
  induction a with
  | nil => simp [objGet, jsOr_none]
  | cons p rest ih => by_cases h : p.1 = k <;> simp [objGet, h, ih, jsOr_some]

theorem lastGet_append (a b : JsObj) (k : String) :
    lastGet (a ++ b) k = jsOr (lastGet b k) (lastGet a k) := by
  induction a with
  | nil => simp [lastGet, jsOr_none_right]
  | cons p rest ih =>
    simp only [List.cons_append, lastGet, List.append_eq, ih, jsOr_assoc]

theorem objGet_map_set (o : JsObj) (k v k2 : String) :
    objGet (o.map (fun p => if p.1 = k then (k, v) else p)) k2
      = if k2 = k then (if objMemKey o k then some v else none) else objGet o k2 := by
  induction o with
  | nil => simp [objGet, objMemKey]
  | cons p rest ih =>
    by_cases hpk : p.1 = k
    · by_cases hk2 : k2 = k
      · subst hk2
        simp [objGet, objMemKey, hpk, ih]
      · have hk2s : ¬ k = k2 := fun h => hk2 h.symm
        have hp2 : ¬ p.1 = k2 := by rw [hpk]; exact hk2s
        simp [objGet, objMemKey, hpk, hk2, hk2s, hp2, ih]
    · by_cases hp2 : p.1 = k2
      · have hk2 : ¬ k2 = k := fun h => hpk (by rw [hp2, h])
        simp [objGet, objMemKey, hpk, hp2, hk2]
      · simp [objGet, objMemKey, hpk, hp2, ih]

theorem lastGet_map_set (o : JsObj) (k v k2 : String) :
    lastGet (o.map (fun p => if p.1 = k then (k, v) else p)) k2
      = if k2 = k then (if objMemKey o k then some v else none) else lastGet o k2 := by
  induction o with
  | nil => simp [lastGet, objMemKey]
  | cons p rest ih =>
    by_cases hpk : p.1 = k
    · by_cases hk2 : k2 = k
      · subst hk2
        simp only [List.map_cons, lastGet, ih, objMemKey, hpk, if_pos rfl, if_true]
        by_cases hm : objMemKey rest k2 <;> simp [hm, jsOr]
      · have hk2s : ¬ k = k2 := fun h => hk2 h.symm
        have hp2 : ¬ p.1 = k2 := by rw [hpk]; exact hk2s
        simp [lastGet, hpk, hk2, hk2s, hp2, ih, objMemKey]
    · by_cases hp2 : p.1 = k2
      · have hk2 : ¬ k2 = k := fun h => hpk (by rw [hp2, h])
        simp [lastGet, hpk, hp2, hk2, ih, objMemKey]
      · simp [lastGet, hpk, hp2, ih, objMemKey, jsOr_none_right]

theorem objGet_insert (o : JsObj) (k v k2 : String) :
    objGet (objInsert o k v) k2 = if k2 = k then some v else objGet o k2 := by
  unfold objInsert
  by_cases hm : objMemKey o k
  · simp [hm, objGet_map_set]
  · have hnone : objGet o k = none := objGet_eq_none o k (by simpa using hm)
    by_cases hk2 : k2 = k
    · subst hk2
      simp [hm, objGet_append, hnone, objGet, jsOr]
    · have hp2 : ¬ k = k2 := fun h => hk2 h.symm
      simp [hm, objGet_append, objGet, hp2, hk2, jsOr_none_right]

theorem lastGet_insert (o : JsObj) (k v k2 : String) :
    lastGet (objInsert o k v) k2 = if k2 = k then some v else lastGet o k2 := by
  unfold objInsert
  by_cases hm : objMemKey o k
  · simp [hm, lastGet_map_set]
  · have hnone : lastGet o k = none := lastGet_eq_none o k (by simpa using hm)
    by_cases hk2 : k2 = k
    · subst hk2
      simp [hm, lastGet_append, lastGet, hnone, jsOr, jsOr_none_right]
    · have hp2 : ¬ k = k2 := fun h => hk2 h.symm
      simp [hm, lastGet_append, lastGet, hp2, hk2, jsOr, jsOr_none_right]

theorem objGet_spread (a l : JsObj) (k : String) :
    objGet (objSpread a l) k = jsOr (lastGet l k) (objGet a k) := by
  induction l generalizing a with
  | nil => simp [objSpread, lastGet, jsOr_none]
  | cons p rest ih =>
    show objGet (objSpread (objInsert a p.1 p.2) rest) k = _
    rw [ih, objGet_insert]
    simp only [lastGet, jsOr_assoc]
    cases lastGet rest k with
    | some v => simp [jsOr]
    | none =>
      by_cases hp : p.1 = k
      · subst hp
        simp [jsOr]
      · have hk : ¬ k = p.1 := fun h => hp h.symm
        simp [jsOr, hp, hk]

theorem lastGet_spread (a l : JsObj) (k : String) :
    lastGet (objSpread a l) k = jsOr (lastGet l k) (lastGet a k) := by
  induction l generalizing a with
  | nil => simp [objSpread, lastGet, jsOr_none]
  | cons p rest ih =>
    show lastGet (objSpread (objInsert a p.1 p.2) rest) k = _
    rw [ih, lastGet_insert]
    simp only [lastGet, jsOr_assoc]
    cases lastGet rest k with
    | some v => simp [jsOr]
    | none =>
      by_cases hp : p.1 = k
      · subst hp
        simp [jsOr]
      · have hk : ¬ k = p.1 := fun h => hp h.symm
        simp [jsOr, hp, hk]

theorem objGet_fromEntries (l : List (String × String)) (k : String) :
    objGet (fromEntries l) k = lastGet l k := by
  rw [fromEntries, objGet_spread]
  simp [objGet, jsOr_none_right]

theorem lastGet_fromEntries (l : List (String × String)) (k : String) :
    lastGet (fromEntries l) k = lastGet l k := by
  rw [fromEntries, lastGet_spread]
  simp [lastGet, jsOr_none_right]

theorem lastGet_mem (l : List (String × String)) (k v : String)
    (h : lastGet l k = some v) : (k, v) ∈ l := by
  induction l with
  | nil => exact absurd h (by simp [lastGet])
  | cons p rest ih =>
    simp only [lastGet] at h
    cases hr : lastGet rest k with
    | some w =>
      rw [hr, jsOr_some] at h
      cases h
      exact List.mem_cons_of_mem p (ih hr)
    | none =>
      rw [hr, jsOr_none] at h
      by_cases hp : p.1 = k
      · rw [if_pos hp] at h
        cases h
        subst hp
        exact List.mem_cons.mpr (Or.inl (Prod.mk.eta).symm)
      · rw [if_neg hp] at h
        cases h

theorem lastGet_isSome_of_mem (l : List (String × String)) (k w : String)
    (h : (k, w) ∈ l) : (lastGet l k).isSome := by
  induction l with
  | nil => cases h
  | cons p rest ih =>
    rcases List.mem_cons.mp h with h1 | h2
    · rw [← h1]
      simp only [lastGet]
      cases lastGet rest k <;> simp [jsOr]
    · have hs := ih h2
      simp only [lastGet]
      cases hr : lastGet rest k
      · rw [hr] at hs; cases hs
      · simp [jsOr]

theorem getNormalizedHeaders_eq (h : Option HeadersInit) :
    getNormalizedHeaders h = fromEntries (normEntriesOf h) := by
  cases h with
  | none => rfl
  | some hi => cases hi <;> rfl

theorem normEntries_origin (h : Option HeadersInit) (hl : nativeLowercased h) (k v : String)
    (hm : (k, v) ∈ normEntriesOf h) :
    ∃ n, jsToLower n = k ∧ (n, v) ∈ headersInitEntries h := by
  cases h with
  | none => cases hm
  | some hi =>
    cases hi with
    | native entries => exact ⟨k, hl (k, v) hm, hm⟩
    | pairs l =>
      rcases List.mem_map.mp hm with ⟨q, hq, he⟩
      rw [Prod.mk.injEq] at he
      obtain ⟨h1, h2⟩ := he
      subst h2
      exact ⟨q.1, h1, by simpa using hq⟩
    | record o =>
      rcases List.mem_map.mp hm with ⟨q, hq, he⟩
      rw [Prod.mk.injEq] at he
      obtain ⟨h1, h2⟩ := he
      subst h2
      exact ⟨q.1, h1, by simpa using hq⟩

theorem normEntries_complete (h : Option HeadersInit) (hl : nativeLowercased h) (n w : String)
    (hm : (n, w) ∈ headersInitEntries h) :
    (lastGet (normEntriesOf h) (jsToLower n)).isSome := by
  cases h with
  | none => cases hm
  | some hi =>
    cases hi with
    | native entries =>
      have he : jsToLower n = n := hl (n, w) hm
      rw [he]
      exact lastGet_isSome_of_mem _ _ w hm
    | pairs l =>
      exact lastGet_isSome_of_mem _ _ w (List.mem_map.mpr ⟨(n, w), hm, rfl⟩)
    | record o =>
      exact lastGet_isSome_of_mem _ _ w (List.mem_map.mpr ⟨(n, w), hm, rfl⟩)

/-!
## Claim theorems
-/

/-- C6: construction of the client throws exactly when a configured path is
non-empty and does not start with `/`; it succeeds for the empty path and
for every path starting with `/`; a failed construction yields no client
value (the `Except` is an error). -/
theorem c6_constructor_path_check (options : FetchHttpClientOptions) (p : String)
    (h : options.path = some p) :
    (∃ e, mkClient options = Except.error e) ↔ (p ≠ "" ∧ ¬ jsStartsWith p "/") := by
  by_cases h1 : p = ""
  · subst h1
    have he : ("" : String).isEmpty = true := rfl
    simp [mkClient, pathRejected, h, he]
  · have hie : p.isEmpty = false :=
      Bool.eq_false_iff.mpr (fun he => h1 ((String.isEmpty_iff p).mp he))
    by_cases h2 : jsStartsWith p "/"
    · simp [mkClient, pathRejected, h, h1, h2, hie]
    · simp [mkClient, pathRejected, h, h1, h2, hie]

/-- C6 witness: the path `"api"` is rejected at construction. -/
theorem c6_witness :
    (∃ e, mkClient { path := some "api" } = Except.error e)
      ↔ (("api" : String) ≠ "" ∧ ¬ jsStartsWith "api" "/") :=
  c6_constructor_path_check { path := some "api" } "api" rfl

theorem sorted_iff_pairwise {l : List Nat} :
    l.Sorted (· < ·) ↔ l.Pairwise (· < ·) := Iff.rfl

theorem jsIndexOf_absent (l : List Nat) (x : Nat) (h : x ∉ l) :
    jsIndexOf l x = -1 := by
  induction l with
  | nil => rfl
  | cons a rest ih =>
    have hax : ¬ a = x := fun he => h (he ▸ List.mem_cons_self a rest)
    have hr : x ∉ rest := fun hm => h (List.mem_cons_of_mem a hm)
    simp [jsIndexOf, hax, ih hr]

theorem remove_absent (q : RequestQueue) (id : Nat) (h : id ∉ q.queuedCalls) :
    (q.remove id).queuedCalls = q.queuedCalls.dropLast ++ q.queuedCalls := by
  have hidx : jsIndexOf q.queuedCalls id = -1 := jsIndexOf_absent _ _ h
  show jsSlice q.queuedCalls 0 (jsIndexOf q.queuedCalls id)
      ++ jsSliceFrom q.queuedCalls (jsIndexOf q.queuedCalls id + 1) = _
  rw [hidx]
  have h1 : jsSlice q.queuedCalls 0 (-1) = q.queuedCalls.dropLast := by
    unfold jsSlice jsSliceIndex
    have e1 : (((q.queuedCalls.length : Int) + (-1)).toNat) = q.queuedCalls.length - 1 := by
      omega
    have e2 : ¬ ((0 : Int) < 0) := by omega
    simp only [if_pos (by omega : (-1 : Int) < 0), e1, if_neg (by omega : ¬ ((0 : Int) < 0))]
    simp [List.dropLast_eq_take]
  have h2 : jsSliceFrom q.queuedCalls (-1 + 1) = q.queuedCalls := by
    unfold jsSliceFrom jsSlice jsSliceIndex
    norm_num
    split <;> omega
  rw [h1, h2]

/-- C9 counterexample: on the non-empty queue `[5]`, removing the absent id
`9` leaves the queue unchanged — it is not `dropLast ++ copy` with a lost
last element and duplicated ids, and the strictly-increasing ordering is not
violated. -/
theorem c9_counterexample :
    (9 : Nat) ∉ (RequestQueue.mk 1 [5]).queuedCalls
    ∧ (RequestQueue.remove ⟨1, [5]⟩ 9).queuedCalls = (RequestQueue.mk 1 [5]).queuedCalls
    ∧ (RequestQueue.remove ⟨1, [5]⟩ 9).queuedCalls.Sorted (· < ·) := by
  refine ⟨by decide, by decide, ?_⟩
  rw [show (RequestQueue.remove ⟨1, [5]⟩ 9).queuedCalls = [5] by decide]
  simp

/-- C9 (amended): removing an id that is not in the queue rebuilds the ticket
list as `dropLast ++ full copy`. For queues with at least two tickets this
differs from the original (it loses the last ticket's position, duplicates
every other id, and breaks the strictly-increasing ordering); a one-element
queue is left unchanged. -/
theorem c9_remove_missing (q : RequestQueue) (id : Nat) (h : id ∉ q.queuedCalls) :
    (q.remove id).queuedCalls = q.queuedCalls.dropLast ++ q.queuedCalls
    ∧ (q.queuedCalls.length = 1 → (q.remove id).queuedCalls = q.queuedCalls)
    ∧ (2 ≤ q.queuedCalls.length → ¬ (q.remove id).queuedCalls.Sorted (· < ·)) := by
  have hmain := remove_absent q id h
  refine ⟨hmain, ?_, ?_⟩
  · intro hlen
    rcases List.length_eq_one.mp hlen with ⟨a, ha⟩
    rw [hmain, ha]
    rfl
  · intro hlen hsorted
    rw [hmain] at hsorted
    rcases hq : q.queuedCalls with _ | ⟨a, rest⟩
    · rw [hq] at hlen; simp at hlen
    · rcases hr : rest with _ | ⟨b, t⟩
      · rw [hq, hr] at hlen; simp at hlen
      · rw [hq, hr] at hsorted
        have hnodup : (List.dropLast (a :: b :: t) ++ a :: b :: t).Nodup :=
          List.Sorted.nodup hsorted
        have hcons : List.dropLast (a :: b :: t) ++ a :: b :: t
            = a :: (List.dropLast (b :: t) ++ a :: b :: t) := by
          simp
        rw [hcons] at hnodup
        have hmem : a ∈ List.dropLast (b :: t) ++ a :: b :: t :=
          List.mem_append_right _ (List.mem_cons_self a _)
        exact (List.nodup_cons.mp hnodup).1 hmem

/-- C9 witness: on the queue `[0, 1, 2]`, removing the absent id `9` yields
`[0, 1, 0, 1, 2]`, which is not strictly increasing. -/
theorem c9_witness :
    (9 : Nat) ∉ (RequestQueue.mk 3 [0, 1, 2]).queuedCalls
    ∧ ((RequestQueue.remove ⟨3, [0, 1, 2]⟩ 9).queuedCalls
        = ([0, 1, 2] : List Nat).dropLast ++ [0, 1, 2]
      ∧ ((RequestQueue.mk 3 [0, 1, 2]).queuedCalls.length = 1 →
        (RequestQueue.remove ⟨3, [0, 1, 2]⟩ 9).queuedCalls = [0, 1, 2])
      ∧ (2 ≤ (RequestQueue.mk 3 [0, 1, 2]).queuedCalls.length →
        ¬ (RequestQueue.remove ⟨3, [0, 1, 2]⟩ 9).queuedCalls.Sorted (· < ·))) :=
  ⟨by decide, c9_remove_missing ⟨3, [0, 1, 2]⟩ 9 (by decide)⟩

/-- C5: for every composed URI whose trimmed input matches the URI pattern,
the input is relative exactly when neither protocol nor host were captured;
a relative input is prefixed with `configured-protocol://configured-host`
when a configured host exists and always gets `configured-path ++
captured-path` appended; an absolute input composes as
`(captured-protocol or configured-protocol) :// (captured-host or
configured-host) ++ configured-path ++ captured-path`. -/
theorem c5_uri_composition (cfg : ClientConfig) (uri : String)
    (proto host path : Option String)
    (hm : uriExec (jsTrim uri) = some (proto, host, path)) :
    ((proto = none ∧ host = none) →
      getTreatedUri cfg uri
        = (if cfg.host ≠ "" then cfg.protocol.toStr ++ "://" ++ cfg.host else "")
          ++ cfg.path ++ path.getD "")
    ∧ ((proto ≠ none ∨ host ≠ none) →
      getTreatedUri cfg uri
        = proto.getD cfg.protocol.toStr ++ "://" ++ host.getD cfg.host
          ++ cfg.path ++ path.getD "") := by
  simp only [getTreatedUri, hm]
  constructor
  · rintro ⟨h1, h2⟩
    subst h1; subst h2
    simp
  · intro h
    have hcond : (proto.isNone && host.isNone) = false := by
      rcases h with h | h <;> cases proto <;> cases host <;> simp_all
    simp [hcond]

/-- C5 witness: with configured host `google.com` and path `/api`, the
absolute-looking input `gmail.com/somewhere` captures host `gmail.com` and
path `/somewhere` and composes to `http://gmail.com/api/somewhere`. -/
theorem c5_witness :
    uriExec (jsTrim "gmail.com/somewhere")
      = some (none, some "gmail.com", some "/somewhere")
    ∧ getTreatedUri cfgGoogle "gmail.com/somewhere" = "http://gmail.com/api/somewhere" := by
  constructor
  · rfl
  · have h := (c5_uri_composition cfgGoogle "gmail.com/somewhere"
      none (some "gmail.com") (some "/somewhere") rfl).2 (Or.inr (by simp))
    rw [h]
    rfl

/-- C8: for any pair of default (`d`) and per-call (`c`) header inputs in
any of the three accepted shapes, the merged normalized record
`{...normalize(d), ...normalize(c)}` satisfies: a per-call value overrides
the default value for the same key; a key absent from the per-call side
keeps the default value; every merged value is a source value attached to a
source name whose lowercasing is the merged key (keys lowercased, values
unchanged); every per-call entry is retained under its lowercased name, and
every default entry whose lowercased name the per-call side does not use is
retained as well. Native collections carry lowercase names at rest, which is
the `nativeLowercased` hypothesis. -/
theorem c8_header_merge (d c : Option HeadersInit) (k v : String)
    (hd : nativeLowercased d) (hc : nativeLowercased c) :
    ((objGet (getNormalizedHeaders c) k).isSome →
      objGet (objSpread (getNormalizedHeaders d) (getNormalizedHeaders c)) k
        = objGet (getNormalizedHeaders c) k)
    ∧ (objGet (getNormalizedHeaders c) k = none →
      objGet (objSpread (getNormalizedHeaders d) (getNormalizedHeaders c)) k
        = objGet (getNormalizedHeaders d) k)
    ∧ (objGet (objSpread (getNormalizedHeaders d) (getNormalizedHeaders c)) k = some v →
      ∃ n, jsToLower n = k
        ∧ ((n, v) ∈ headersInitEntries d ∨ (n, v) ∈ headersInitEntries c))
    ∧ (∀ n w, (n, w) ∈ headersInitEntries c →
      (objGet (objSpread (getNormalizedHeaders d) (getNormalizedHeaders c)) (jsToLower n)).isSome)
    ∧ (∀ n w, (n, w) ∈ headersInitEntries d →
      objGet (getNormalizedHeaders c) (jsToLower n) = none →
      (objGet (objSpread (getNormalizedHeaders d) (getNormalizedHeaders c)) (jsToLower n)).isSome) := by
  have hms : ∀ k2, objGet (objSpread (getNormalizedHeaders d) (getNormalizedHeaders c)) k2
      = jsOr (lastGet (normEntriesOf c) k2) (objGet (getNormalizedHeaders d) k2) := by
    intro k2
    rw [objGet_spread, getNormalizedHeaders_eq c, lastGet_fromEntries]
  have hoc : ∀ k2, objGet (getNormalizedHeaders c) k2 = lastGet (normEntriesOf c) k2 := by
    intro k2
    rw [getNormalizedHeaders_eq c, objGet_fromEntries]
  have hod : ∀ k2, objGet (getNormalizedHeaders d) k2 = lastGet (normEntriesOf d) k2 := by
    intro k2
    rw [getNormalizedHeaders_eq d, objGet_fromEntries]
  refine ⟨?_, ?_, ?_, ?_, ?_⟩
  · intro hsome
    rw [hms k, hoc k]
    rw [hoc k] at hsome
    cases hlc : lastGet (normEntriesOf c) k
    · rw [hlc] at hsome; cases hsome
    · exact jsOr_some _ _
  · intro hnone
    rw [hoc k] at hnone
    rw [hms k, hnone, jsOr_none]
  · intro hv
    rw [hms k] at hv
    cases hlc : lastGet (normEntriesOf c) k with
    | some w =>
      rw [hlc, jsOr_some] at hv
      injection hv with hwv
      subst hwv
      rcases normEntries_origin c hc k w (lastGet_mem _ _ _ hlc) with ⟨n, hn, hmem⟩
      exact ⟨n, hn, Or.inr hmem⟩
    | none =>
      rw [hlc, jsOr_none, hod k] at hv
      rcases normEntries_origin d hd k v (lastGet_mem _ _ _ hv) with ⟨n, hn, hmem⟩
      exact ⟨n, hn, Or.inl hmem⟩
  · intro n w hmem
    rw [hms (jsToLower n)]
    have hs := normEntries_complete c hc n w hmem
    cases hlc : lastGet (normEntriesOf c) (jsToLower n)
    · rw [hlc] at hs; cases hs
    · rfl
  · intro n w hmem hnone
    rw [hoc (jsToLower n)] at hnone
    rw [hms (jsToLower n), hnone, jsOr_none, hod (jsToLower n)]
    exact normEntries_complete d hd n w hmem

/-- C8 witness: defaults given as a record with mixed-case names, per-call
headers given as a pair list; the per-call `x-api` value wins, the default
`keep` entry is retained, and every merged entry traces back to a source
entry under its lowercased name. -/
theorem c8_witness :
    (let d := some (HeadersInit.record [("X-Api", "d1"), ("Keep", "k1")])
     let c := some (HeadersInit.pairs [("X-Api", "c1")])
     ((objGet (getNormalizedHeaders c) "x-api").isSome →
       objGet (objSpread (getNormalizedHeaders d) (getNormalizedHeaders c)) "x-api"
         = objGet (getNormalizedHeaders c) "x-api")
     ∧ (objGet (getNormalizedHeaders c) "x-api" = none →
       objGet (objSpread (getNormalizedHeaders d) (getNormalizedHeaders c)) "x-api"
         = objGet (getNormalizedHeaders d) "x-api")
     ∧ (objGet (objSpread (getNormalizedHeaders d) (getNormalizedHeaders c)) "x-api" = some "c1" →
       ∃ n, jsToLower n = "x-api"
         ∧ ((n, "c1") ∈ headersInitEntries d ∨ (n, "c1") ∈ headersInitEntries c))
     ∧ (∀ n w, (n, w) ∈ headersInitEntries c →
       (objGet (objSpread (getNormalizedHeaders d) (getNormalizedHeaders c)) (jsToLower n)).isSome)
     ∧ (∀ n w, (n, w) ∈ headersInitEntries d →
       objGet (getNormalizedHeaders c) (jsToLower n) = none →
       (objGet (objSpread (getNormalizedHeaders d) (getNormalizedHeaders c)) (jsToLower n)).isSome)) :=
  c8_header_merge (some (HeadersInit.record [("X-Api", "d1"), ("Keep", "k1")]))
    (some (HeadersInit.pairs [("X-Api", "c1")])) "x-api" "c1" trivial trivial

theorem lastGet_isSome_eq_memKey (o : JsObj) (k : String) :
    (lastGet o k).isSome = objMemKey o k := by
  induction o with
  | nil => rfl
  | cons p rest ih =>
    by_cases hp : p.1 = k <;>
      cases hr : lastGet rest k <;>
        simp_all [lastGet, objMemKey, jsOr]

theorem lastGet_none_of_objGet_none (o : JsObj) (k : String)
    (h : objGet o k = none) : lastGet o k = none := by
  have hm : objMemKey o k = false := by
    rw [objMemKey_isSome, h]
    rfl
  exact lastGet_eq_none o k hm

theorem makeRequest_ok_merge (cfg : ClientConfig) (transport : Transport)
    (method uri : String) (req : BasicHttpRequestData) (hdrs : JsObj)
    (h : mergedHeaders cfg req = Except.ok hdrs) :
    makeRequest cfg transport method uri req
      = dispatchPhase cfg transport method uri req hdrs := by
  unfold makeRequest
  rw [h]

theorem makeRequest_merge_error (cfg : ClientConfig) (transport : Transport)
    (method uri : String) (req : BasicHttpRequestData) (e : JsError)
    (h : mergedHeaders cfg req = Except.error e) :
    makeRequest cfg transport method uri req = ⟨none, none, [], Except.error e⟩ := by
  unfold makeRequest
  rw [h]

theorem dispatchPhase_sent (cfg : ClientConfig) (transport : Transport)
    (method uri : String) (req : BasicHttpRequestData) (hdrs : JsObj) :
    (dispatchPhase cfg transport method uri req hdrs).sent
      = some (getTreatedUri cfg uri,
          buildRequestOptions method hdrs (contentTypeToUseOf hdrs req.body)
            (isJsonRequestOf hdrs req.body) req.body) := by
  simp only [dispatchPhase]
  split
  · rfl
  · split <;> rfl

theorem dispatchPhase_transport_error (cfg : ClientConfig) (transport : Transport)
    (method uri : String) (req : BasicHttpRequestData) (hdrs : JsObj) (e : JsError)
    (htr : transport (getTreatedUri cfg uri)
        (buildRequestOptions method hdrs (contentTypeToUseOf hdrs req.body)
          (isJsonRequestOf hdrs req.body) req.body) = Except.error e) :
    dispatchPhase cfg transport method uri req hdrs
      = ⟨some (getTreatedUri cfg uri,
            buildRequestOptions method hdrs (contentTypeToUseOf hdrs req.body)
              (isJsonRequestOf hdrs req.body) req.body),
          none, [e],
          if req.allowThrow then Except.error e else Except.ok (none, none)⟩ := by
  simp only [dispatchPhase, htr]

theorem dispatchPhase_parse_ok (cfg : ClientConfig) (transport : Transport)
    (method uri : String) (req : BasicHttpRequestData) (hdrs : JsObj)
    (resp : ResponseModel) (b : JsValue)
    (htr : transport (getTreatedUri cfg uri)
        (buildRequestOptions method hdrs (contentTypeToUseOf hdrs req.body)
          (isJsonRequestOf hdrs req.body) req.body) = Except.ok resp)
    (hp : chosenParse req resp = Except.ok b) :
    dispatchPhase cfg transport method uri req hdrs
      = ⟨some (getTreatedUri cfg uri,
            buildRequestOptions method hdrs (contentTypeToUseOf hdrs req.body)
              (isJsonRequestOf hdrs req.body) req.body),
          some resp, [], Except.ok (some resp, some b)⟩ := by
  simp only [dispatchPhase, htr, hp]

theorem dispatchPhase_parse_error (cfg : ClientConfig) (transport : Transport)
    (method uri : String) (req : BasicHttpRequestData) (hdrs : JsObj)
    (resp : ResponseModel) (e : JsError)
    (htr : transport (getTreatedUri cfg uri)
        (buildRequestOptions method hdrs (contentTypeToUseOf hdrs req.body)
          (isJsonRequestOf hdrs req.body) req.body) = Except.ok resp)
    (hp : chosenParse req resp = Except.error e) :
    dispatchPhase cfg transport method uri req hdrs
      = ⟨some (getTreatedUri cfg uri,
            buildRequestOptions method hdrs (contentTypeToUseOf hdrs req.body)
              (isJsonRequestOf hdrs req.body) req.body),
          some resp, [e],
          if req.allowThrow then Except.error e else Except.ok (none, none)⟩ := by
  simp only [dispatchPhase, htr, hp]

/-- C1 counterexample: two calls whose merged headers do contain a
content-type header yet whose body is not passed through unchanged. With
`content-type: application/json` and body `"hi"`, the dispatched body is the
JSON serialization `"\"hi\""`; with a `content-type` header whose value is
empty and body `"x"`, the dispatched body is `"\"x\""`. -/
theorem c1_counterexample :
    mergedHeaders cfgDefault reqJsonCT = Except.ok [("content-type", "application/json")]
    ∧ reqJsonCT.body = some (JsValue.str "hi")
    ∧ sentBodyOf (makeRequest cfgDefault (okTransport respTextEx) "POST" "/x" reqJsonCT)
        = some (some (JsValue.str "\"hi\""))
    ∧ JsValue.str "\"hi\"" ≠ JsValue.str "hi"
    ∧ mergedHeaders cfgDefault reqEmptyCT = Except.ok [("content-type", "")]
    ∧ reqEmptyCT.body = some (JsValue.str "x")
    ∧ sentBodyOf (makeRequest cfgDefault (okTransport respTextEx) "POST" "/x" reqEmptyCT)
        = some (some (JsValue.str "\"x\""))
    ∧ JsValue.str "\"x\"" ≠ JsValue.str "x" := by
  refine ⟨rfl, rfl, rfl, ?_, rfl, rfl, rfl, ?_⟩
  · intro h
    injection h with hs
    exact absurd hs (by decide)
  · intro h
    injection h with hs
    exact absurd hs (by decide)

/-- C1 (amended): when the merged headers carry a content-type header whose
stored value is non-empty and not case-insensitively equal to
`application/json`, the caller's body is handed to the transport unchanged,
and the dispatched headers carry that content-type together with
`accept: <content-type>, */*;q=0.9`. (When the value is
`application/json`, or empty, the body is JSON-serialized instead — see the
counterexample.) -/
theorem c1_content_type_passthrough (cfg : ClientConfig) (transport : Transport)
    (method uri : String) (req : BasicHttpRequestData) (hdrs : JsObj) (ct : String)
    (h1 : mergedHeaders cfg req = Except.ok hdrs)
    (h2 : objGet hdrs "content-type" = some ct)
    (h3 : ct ≠ "")
    (h4 : jsToLower ct ≠ "application/json") :
    ∃ u r, (makeRequest cfg transport method uri req).sent = some (u, r)
      ∧ r.body = req.body
      ∧ objGet r.headers "accept" = some (ct ++ ", */*;q=0.9")
      ∧ objGet r.headers "content-type" = some ct := by
  have hie : ct.isEmpty = false :=
    Bool.eq_false_iff.mpr (fun he => h3 ((String.isEmpty_iff ct).mp he))
  have hj : isJsonRequestOf hdrs req.body = false := by
    unfold isJsonRequestOf contentTypeOf
    rw [h2]
    simp only [Option.getD_some, strTruthy, hie, Bool.not_true, Bool.not_false, Bool.false_or,
      Bool.and_eq_false_iff, beq_eq_false_iff_ne]
    exact Or.inl h4
  have hctu : contentTypeToUseOf hdrs req.body = some ct := by
    unfold contentTypeToUseOf contentTypeOf
    rw [h2]
    simp [strTruthy, hie]
  rw [makeRequest_ok_merge cfg transport method uri req hdrs h1]
  refine ⟨getTreatedUri cfg uri, _, dispatchPhase_sent cfg transport method uri req hdrs,
    ?_, ?_, ?_⟩
  · simp [buildRequestOptions, hj]
  · rw [show (buildRequestOptions method hdrs (contentTypeToUseOf hdrs req.body)
        (isJsonRequestOf hdrs req.body) req.body).headers
      = objSpread (objSpread (fromEntries [("accept", "*/*")]) (fromEntries hdrs))
          [("content-type", ct), ("accept", ct ++ ", */*;q=0.9")] by
      simp [buildRequestOptions, hctu, hie]]
    rw [objGet_spread]
    simp [lastGet, jsOr]
  · rw [show (buildRequestOptions method hdrs (contentTypeToUseOf hdrs req.body)
        (isJsonRequestOf hdrs req.body) req.body).headers
      = objSpread (objSpread (fromEntries [("accept", "*/*")]) (fromEntries hdrs))
          [("content-type", ct), ("accept", ct ++ ", */*;q=0.9")] by
      simp [buildRequestOptions, hctu, hie]]
    rw [objGet_spread]
    simp [lastGet, jsOr, (by decide : ¬ ("accept" : String) = "content-type")]

/-- C1 witness: a `POST` with `content-type: text/plain` and body `"hi"`
dispatches the body unchanged with `accept: text/plain, */*;q=0.9`. -/
theorem c1_witness :
    mergedHeaders cfgDefault reqPlainText = Except.ok [("content-type", "text/plain")]
    ∧ objGet [("content-type", "text/plain")] "content-type" = some "text/plain"
    ∧ ("text/plain" : String) ≠ ""
    ∧ jsToLower "text/plain" ≠ "application/json"
    ∧ (∃ u r,
        (makeRequest cfgDefault (okTransport respTextEx) "POST" "/x" reqPlainText).sent
          = some (u, r)
        ∧ r.body = reqPlainText.body
        ∧ objGet r.headers "accept" = some ("text/plain" ++ ", */*;q=0.9")
        ∧ objGet r.headers "content-type" = some "text/plain") :=
  ⟨rfl, rfl, by decide, by decide,
    c1_content_type_passthrough cfgDefault (okTransport respTextEx) "POST" "/x"
      reqPlainText [("content-type", "text/plain")] "text/plain" rfl rfl
      (by decide) (by decide)⟩

/-- C10 counterexample: with a merged `content-type` header that is present
but carries the empty value (so neither absent nor equal to
`application/json`) and a truthy body `"x"`, the body is nevertheless
JSON-serialized, because the code tests the header's truthiness, not its
presence. -/
theorem c10_counterexample :
    mergedHeaders cfgDefault reqEmptyCT = Except.ok [("content-type", "")]
    ∧ objGet [("content-type", "")] "content-type" = some ""
    ∧ ("" : String) ≠ "application/json"
    ∧ jsToLower "" ≠ "application/json"
    ∧ jsTruthy reqEmptyCT.body = true
    ∧ sentBodyOf (makeRequest cfgDefault (okTransport respTextEx) "POST" "/x" reqEmptyCT)
        = some (some (JsValue.str "\"x\""))
    ∧ reqEmptyCT.body = some (JsValue.str "x")
    ∧ JsValue.str "\"x\"" ≠ JsValue.str "x" := by
  refine ⟨rfl, rfl, by decide, by decide, rfl, rfl, rfl, ?_⟩
  intro h
  injection h with hs
  exact absurd hs (by decide)

/-- C10 (amended): the body is JSON-stringified exactly when it is truthy
and the merged content-type is falsy (absent or empty) or case-insensitively
equal to exactly `application/json`; otherwise (falsy body, or a non-empty
content-type different from `application/json`, such as
`application/json; charset=utf-8`) the body passes through unchanged; and a
falsy body with no content-type header leaves the dispatched request without
a content-type header. -/
theorem c10_request_serialization (cfg : ClientConfig) (transport : Transport)
    (method uri : String) (req : BasicHttpRequestData) (hdrs : JsObj)
    (h1 : mergedHeaders cfg req = Except.ok hdrs) :
    ∃ u r, (makeRequest cfg transport method uri req).sent = some (u, r)
      ∧ ((jsTruthy req.body = true
            ∧ (strTruthy (objGet hdrs "content-type") = false
              ∨ jsToLower ((objGet hdrs "content-type").getD "") = "application/json")) →
          r.body = req.body.map (fun v => JsValue.str (jsonStringify v)))
      ∧ ((jsTruthy req.body = false
            ∨ (strTruthy (objGet hdrs "content-type") = true
              ∧ jsToLower ((objGet hdrs "content-type").getD "") ≠ "application/json")) →
          r.body = req.body)
      ∧ ((jsTruthy req.body = false ∧ objGet hdrs "content-type" = none) →
          objGet r.headers "content-type" = none) := by
  rw [makeRequest_ok_merge cfg transport method uri req hdrs h1]
  refine ⟨getTreatedUri cfg uri, _, dispatchPhase_sent cfg transport method uri req hdrs,
    ?_, ?_, ?_⟩
  · rintro ⟨hb, hc⟩
    have hj : isJsonRequestOf hdrs req.body = true := by
      unfold isJsonRequestOf contentTypeOf
      rcases hc with hc | hc
      · simp [hc, hb]
      · simp [hc, hb]
    simp [buildRequestOptions, hj]
  · intro hyp
    have hj : isJsonRequestOf hdrs req.body = false := by
      unfold isJsonRequestOf contentTypeOf
      rcases hyp with hb | ⟨hp, hc⟩
      · simp [hb]
      · simp [hp, beq_eq_false_iff_ne.mpr hc]
    simp [buildRequestOptions, hj]
  · rintro ⟨hb, hn⟩
    have hj : isJsonRequestOf hdrs req.body = false := by
      unfold isJsonRequestOf
      simp [hb]
    have hctu : contentTypeToUseOf hdrs req.body = none := by
      unfold contentTypeToUseOf contentTypeOf
      rw [hn]
      simp [hj, strTruthy]
    rw [show (buildRequestOptions method hdrs (contentTypeToUseOf hdrs req.body)
        (isJsonRequestOf hdrs req.body) req.body).headers
      = objSpread (fromEntries [("accept", "*/*")]) (fromEntries hdrs) by
      simp [buildRequestOptions, hctu, objSpread]]
    rw [objGet_spread, lastGet_fromEntries,
      lastGet_none_of_objGet_none hdrs "content-type" hn, jsOr_none,
      objGet_fromEntries]
    simp [lastGet, jsOr, (by decide : ¬ ("accept" : String) = "content-type")]

/-- C10 witness: an object body with no content-type header is
JSON-serialized, and a bodyless call with no content-type header dispatches
without one. -/
theorem c10_witness :
    mergedHeaders cfgDefault reqObjBody = Except.ok []
    ∧ (∃ u r,
        (makeRequest cfgDefault (okTransport respTextEx) "POST" "/x" reqObjBody).sent
          = some (u, r)
        ∧ ((jsTruthy reqObjBody.body = true
              ∧ (strTruthy (objGet ([] : JsObj) "content-type") = false
                ∨ jsToLower ((objGet ([] : JsObj) "content-type").getD "") = "application/json")) →
            r.body = reqObjBody.body.map (fun v => JsValue.str (jsonStringify v)))
        ∧ ((jsTruthy reqObjBody.body = false
              ∨ (strTruthy (objGet ([] : JsObj) "content-type") = true
                ∧ jsToLower ((objGet ([] : JsObj) "content-type").getD "") ≠ "application/json")) →
            r.body = reqObjBody.body)
        ∧ ((jsTruthy reqObjBody.body = false ∧ objGet ([] : JsObj) "content-type" = none) →
            objGet r.headers "content-type" = none)) :=
  ⟨rfl, c10_request_serialization cfgDefault (okTransport respTextEx) "POST" "/x"
    reqObjBody [] rfl⟩

/-- C2 counterexample: a per-call header with the invalid name `bad name`
makes the `new Headers(...)` merge throw before the `try` block, so the call
rejects (even though `allowThrow` is false) and the on-error channel never
fires: the error is not caught and not notified. -/
theorem c2_counterexample :
    reqBadName.allowThrow = false
    ∧ (makeRequest cfgDefault (okTransport respTextEx) "GET" "/x" reqBadName).onErrorEvents = []
    ∧ (makeRequest cfgDefault (okTransport respTextEx) "GET" "/x" reqBadName).outcome
        = Except.error (JsError.typeError "invalid header name") :=
  ⟨rfl, rfl, rfl⟩

/-- C2 (amended): once the pre-`try` header merge has succeeded, every error
raised during URI composition, transport dispatch or response-body parsing is
caught: any rejection of the call was notified to on-error first (the
rejected error is exactly the notified one), and any notified error's
disposition follows `allowThrow` — rethrow when true, swallow into
`{response: undefined, body: undefined}` when false. Errors thrown by the
header merge itself escape uncaught with no notification (see the
counterexample). -/
theorem c2_caught_after_merge (cfg : ClientConfig) (transport : Transport)
    (method uri : String) (req : BasicHttpRequestData) (hdrs : JsObj)
    (h1 : mergedHeaders cfg req = Except.ok hdrs) :
    (∀ e, (makeRequest cfg transport method uri req).outcome = Except.error e →
      (makeRequest cfg transport method uri req).onErrorEvents = [e])
    ∧ (∀ e, (makeRequest cfg transport method uri req).onErrorEvents = [e] →
      (req.allowThrow = true →
        (makeRequest cfg transport method uri req).outcome = Except.error e)
      ∧ (req.allowThrow = false →
        (makeRequest cfg transport method uri req).outcome = Except.ok (none, none))) := by
  rw [makeRequest_ok_merge cfg transport method uri req hdrs h1]
  cases htr : transport (getTreatedUri cfg uri)
      (buildRequestOptions method hdrs (contentTypeToUseOf hdrs req.body)
        (isJsonRequestOf hdrs req.body) req.body) with
  | error e0 =>
    rw [dispatchPhase_transport_error cfg transport method uri req hdrs e0 htr]
    constructor
    · intro e he
      cases hat : req.allowThrow <;> rw [hat] at he <;> simp_all
    · intro e he
      simp only at he
      injection he with he1
      subst he1
      constructor <;> intro hat <;> simp [hat]
  | ok resp =>
    cases hp : chosenParse req resp with
    | ok b =>
      rw [dispatchPhase_parse_ok cfg transport method uri req hdrs resp b htr hp]
      constructor
      · intro e he
        simp at he
      · intro e he
        simp at he
    | error e0 =>
      rw [dispatchPhase_parse_error cfg transport method uri req hdrs resp e0 htr hp]
      constructor
      · intro e he
        cases hat : req.allowThrow <;> rw [hat] at he <;> simp_all
      · intro e he
        simp only at he
        injection he with he1
        subst he1
        constructor <;> intro hat <;> simp [hat]

/-- C2 witness: with a failing transport and `allowThrow: true`, the
rejection carries the transport error and the on-error notification received
exactly that error. -/
theorem c2_witness :
    mergedHeaders cfgDefault reqThrow = Except.ok []
    ∧ ((∀ e, (makeRequest cfgDefault (failTransport (JsError.other "down")) "GET" "/x" reqThrow).outcome
          = Except.error e →
        (makeRequest cfgDefault (failTransport (JsError.other "down")) "GET" "/x" reqThrow).onErrorEvents
          = [e])
      ∧ (∀ e, (makeRequest cfgDefault (failTransport (JsError.other "down")) "GET" "/x" reqThrow).onErrorEvents
          = [e] →
        (reqThrow.allowThrow = true →
          (makeRequest cfgDefault (failTransport (JsError.other "down")) "GET" "/x" reqThrow).outcome
            = Except.error e)
        ∧ (reqThrow.allowThrow = false →
          (makeRequest cfgDefault (failTransport (JsError.other "down")) "GET" "/x" reqThrow).outcome
            = Except.ok (none, none)))) :=
  ⟨rfl, c2_caught_after_merge cfgDefault (failTransport (JsError.other "down")) "GET" "/x"
    reqThrow [] rfl⟩

/-- C4: whenever a `makeRequest` call catches an error (the merge succeeded
and the on-error channel fired), it fired exactly once with that error;
with `allowThrow: true` the promise rejects with the same error value, and
with `allowThrow` false or omitted it resolves to
`{response: undefined, body: undefined}`. -/
theorem c4_error_once_and_disposition (cfg : ClientConfig) (transport : Transport)
    (method uri : String) (req : BasicHttpRequestData)
    (h2 : (makeRequest cfg transport method uri req).onErrorEvents ≠ []) :
    ∃ e, (makeRequest cfg transport method uri req).onErrorEvents = [e]
      ∧ (req.allowThrow = true →
        (makeRequest cfg transport method uri req).outcome = Except.error e)
      ∧ (req.allowThrow = false →
        (makeRequest cfg transport method uri req).outcome = Except.ok (none, none)) := by
  cases hm : mergedHeaders cfg req with
  | error e0 =>
    rw [makeRequest_merge_error cfg transport method uri req e0 hm] at h2
    simp at h2
  | ok hdrs =>
  rw [makeRequest_ok_merge cfg transport method uri req hdrs hm] at h2 ⊢
  cases htr : transport (getTreatedUri cfg uri)
      (buildRequestOptions method hdrs (contentTypeToUseOf hdrs req.body)
        (isJsonRequestOf hdrs req.body) req.body) with
  | error e0 =>
    rw [dispatchPhase_transport_error cfg transport method uri req hdrs e0 htr]
    refine ⟨e0, rfl, ?_, ?_⟩ <;> intro hat <;> simp [hat]
  | ok resp =>
    cases hp : chosenParse req resp with
    | ok b =>
      rw [dispatchPhase_parse_ok cfg transport method uri req hdrs resp b htr hp] at h2
      simp at h2
    | error e0 =>
      rw [dispatchPhase_parse_error cfg transport method uri req hdrs resp e0 htr hp]
      refine ⟨e0, rfl, ?_, ?_⟩ <;> intro hat <;> simp [hat]

/-- C4 witness: a failing transport with `allowThrow: true` notifies exactly
once and rejects with the same error. -/
theorem c4_witness :
    mergedHeaders cfgGoogle reqThrow = Except.ok []
    ∧ (makeRequest cfgGoogle (failTransport (JsError.other "boom")) "PUT" "/y" reqThrow).onErrorEvents ≠ []
    ∧ (∃ e, (makeRequest cfgGoogle (failTransport (JsError.other "boom")) "PUT" "/y" reqThrow).onErrorEvents
          = [e]
        ∧ (reqThrow.allowThrow = true →
          (makeRequest cfgGoogle (failTransport (JsError.other "boom")) "PUT" "/y" reqThrow).outcome
            = Except.error e)
        ∧ (reqThrow.allowThrow = false →
          (makeRequest cfgGoogle (failTransport (JsError.other "boom")) "PUT" "/y" reqThrow).outcome
            = Except.ok (none, none))) :=
  ⟨rfl, by decide, c4_error_once_and_disposition cfgGoogle (failTransport (JsError.other "boom"))
    "PUT" "/y" reqThrow (by decide)⟩

/-- C7: on a successful call, a supplied `responseBodyParser` is applied to
the raw response body and its result becomes the returned body regardless of
the response's content-type; without one, the body is parsed with the
response's own `json()` when its content-type contains the substring
`application/json` (so charset parameters still select JSON) and with its
own `text()` otherwise; the parse result is returned beside the response. -/
theorem c7_response_parsing (cfg : ClientConfig) (transport : Transport)
    (method uri : String) (req : BasicHttpRequestData)
    (resp : ResponseModel) (b : JsValue)
    (h2 : (makeRequest cfg transport method uri req).received = some resp)
    (h3 : chosenParse req resp = Except.ok b) :
    (makeRequest cfg transport method uri req).outcome = Except.ok (some resp, some b)
    ∧ (∀ f, req.responseBodyParser = some f → chosenParse req resp = f resp.rawBody)
    ∧ (req.responseBodyParser = none →
        (strIncludes ((objGet resp.headers "content-type").getD "") "application/json" = true →
          chosenParse req resp = resp.jsonResult)
        ∧ (strIncludes ((objGet resp.headers "content-type").getD "") "application/json" = false →
          chosenParse req resp = resp.textResult.map JsValue.str)) := by
  refine ⟨?_, ?_, ?_⟩
  · cases hm : mergedHeaders cfg req with
    | error e0 =>
      rw [makeRequest_merge_error cfg transport method uri req e0 hm] at h2
      simp at h2
    | ok hdrs =>
    rw [makeRequest_ok_merge cfg transport method uri req hdrs hm] at h2 ⊢
    cases htr : transport (getTreatedUri cfg uri)
        (buildRequestOptions method hdrs (contentTypeToUseOf hdrs req.body)
          (isJsonRequestOf hdrs req.body) req.body) with
    | error e0 =>
      rw [dispatchPhase_transport_error cfg transport method uri req hdrs e0 htr] at h2
      simp at h2
    | ok resp0 =>
      cases hp : chosenParse req resp0 with
      | ok b0 =>
        rw [dispatchPhase_parse_ok cfg transport method uri req hdrs resp0 b0 htr hp] at h2 ⊢
        simp only at h2
        injection h2 with h2e
        subst h2e
        rw [hp] at h3
        injection h3 with h3e
        subst h3e
        rfl
      | error e0 =>
        rw [dispatchPhase_parse_error cfg transport method uri req hdrs resp0 e0 htr hp] at h2 ⊢
        simp only at h2
        injection h2 with h2e
        subst h2e
        rw [hp] at h3
        cases h3
  · intro f hf
    simp [chosenParse, hf]
  · intro hn
    constructor <;> intro hct <;> simp [chosenParse, hn, hct]

/-- C7 witness: with no parser supplied, a response whose content-type is
`application/json; charset=utf-8` is parsed with its own `json()` and the
parsed object is returned beside the response. -/
theorem c7_witness :
    mergedHeaders cfgDefault reqPlain = Except.ok []
    ∧ (makeRequest cfgDefault (okTransport respJsonEx) "GET" "/x" reqPlain).received
        = some respJsonEx
    ∧ chosenParse reqPlain respJsonEx = Except.ok (JsValue.obj [("a", JsValue.num 1)])
    ∧ ((makeRequest cfgDefault (okTransport respJsonEx) "GET" "/x" reqPlain).outcome
        = Except.ok (some respJsonEx, some (JsValue.obj [("a", JsValue.num 1)]))
      ∧ (∀ f, reqPlain.responseBodyParser = some f →
          chosenParse reqPlain respJsonEx = f respJsonEx.rawBody)
      ∧ (reqPlain.responseBodyParser = none →
          (strIncludes ((objGet respJsonEx.headers "content-type").getD "") "application/json" = true →
            chosenParse reqPlain respJsonEx = respJsonEx.jsonResult)
          ∧ (strIncludes ((objGet respJsonEx.headers "content-type").getD "") "application/json" = false →
            chosenParse reqPlain respJsonEx = respJsonEx.textResult.map JsValue.str))) :=
  ⟨rfl, rfl, rfl,
    c7_response_parsing cfgDefault (okTransport respJsonEx) "GET" "/x" reqPlain
      respJsonEx (JsValue.obj [("a", JsValue.num 1)]) rfl rfl⟩

theorem rlStep_preserves_rlOrdered (rate : Nat) (s s2 : RLState)
    (hstep : RLStep rate s s2) (h : rlOrdered s) : rlOrdered s2 := by
  obtain ⟨hsort, hbound⟩ := h
  cases hstep with
  | enqueue _hrate hq =>
    constructor
    · show (s.dispatched ++ (s.queue ++ [s.nextId])).Sorted (· < ·)
      rw [← List.append_assoc, sorted_iff_pairwise, List.pairwise_append]
      refine ⟨sorted_iff_pairwise.mp hsort, List.pairwise_singleton _ _, ?_⟩
      intro a ha b hb
      rw [List.mem_singleton] at hb
      subst hb
      exact hbound a ha
    · intro x hx
      rw [← List.append_assoc] at hx
      rcases List.mem_append.mp hx with hx | hx
      · exact Nat.lt_succ_of_lt (hbound x hx)
      · rw [List.mem_singleton] at hx
        subst hx
        exact Nat.lt_succ_self _
  | tick dt => exact ⟨hsort, hbound⟩
  | grant id t hq ht =>
    rw [hq] at hsort hbound
    constructor
    · show ((s.dispatched ++ [id]) ++ t).Sorted (· < ·)
      rw [List.append_assoc, List.singleton_append]
      exact hsort
    · intro x hx
      apply hbound
      rw [List.append_assoc, List.singleton_append] at hx
      exact hx
  | bypass h0 => exact ⟨hsort, hbound⟩

/-- C3: for a client with a positive rate limit, in every state the gate can
reach, the ticketed dispatches happened in strictly increasing ticket order
(tickets are handed out in increasing order, so dispatch-start order equals
enqueue order), and every ticket still waiting in the queue is larger than
every ticket already dispatched — no call dispatches before an
earlier-ticketed call that is still waiting. -/
theorem c3_fifo_dispatch (rate : Nat) (s : RLState) (hrate : 0 < rate)
    (h : RLReachable rate s) :
    s.dispatched.Sorted (· < ·)
    ∧ ∀ i ∈ s.queue, ∀ j ∈ s.dispatched, j < i := by
  have hinv : rlOrdered s := by
    have h2 : Relation.ReflTransGen (RLStep rate) RLInit s := h
    clear h
    induction h2 with
    | refl => constructor <;> simp [rlOrdered, RLInit]
    | tail h3 h4 ih => exact rlStep_preserves_rlOrdered rate _ _ h4 ih
  obtain ⟨hsort, _⟩ := hinv
  rw [sorted_iff_pairwise, List.pairwise_append] at hsort
  exact ⟨sorted_iff_pairwise.mpr hsort.1, fun i hi j hj => hsort.2.2 j hj i hi⟩

/-- C3 witness: two calls enqueue (tickets 0 and 1), time passes, and the
head ticket 0 is granted passage; in the reached state the dispatch log is
`[0]`, the queue is `[1]`, and the FIFO conclusions hold. -/
theorem c3_witness :
    (0 : Nat) < 100
    ∧ RLReachable 100 ⟨[1], 2, 150, 150, [0]⟩
    ∧ (((⟨[1], 2, 150, 150, [0]⟩ : RLState).dispatched.Sorted (· < ·))
      ∧ ∀ i ∈ (⟨[1], 2, 150, 150, [0]⟩ : RLState).queue,
          ∀ j ∈ (⟨[1], 2, 150, 150, [0]⟩ : RLState).dispatched, j < i) := by
  have h1 : RLStep 100 RLInit ⟨[0], 1, 0, 0, []⟩ :=
    RLStep.enqueue RLInit (by decide) (by decide)
  have h2 : RLStep 100 ⟨[0], 1, 0, 0, []⟩ ⟨[0, 1], 2, 0, 0, []⟩ :=
    RLStep.enqueue ⟨[0], 1, 0, 0, []⟩ (by decide) (by decide)
  have h3 : RLStep 100 ⟨[0, 1], 2, 0, 0, []⟩ ⟨[0, 1], 2, 0, 150, []⟩ :=
    RLStep.tick ⟨[0, 1], 2, 0, 0, []⟩ 150
  have h4 : RLStep 100 ⟨[0, 1], 2, 0, 150, []⟩ ⟨[1], 2, 150, 150, [0]⟩ :=
    RLStep.grant ⟨[0, 1], 2, 0, 150, []⟩ 0 [1] rfl (by decide)
  have hr : RLReachable 100 ⟨[1], 2, 150, 150, [0]⟩ :=
    Relation.ReflTransGen.tail
      (Relation.ReflTransGen.tail
        (Relation.ReflTransGen.tail (Relation.ReflTransGen.single h1) h2) h3) h4
  exact ⟨by decide, hr, c3_fifo_dispatch 100 _ (by decide) hr⟩
